import Mathlib

/-!
Shallow embedding of the schema-migration engine of the `drive` repository
(`internal/database/migration/migration.go` and `registry.go`).

The persistent store is modelled as the record table (a list of
`MigrationRecord` rows plus an existence flag) together with an abstract
schema state of type `σ` and a monotone insertion clock supplying the
`applied_at` timestamps (gorm's `autoCreateTime` set by the store at insert
time).  Each migration unit carries its `ID()` and its fallible
`Migrate`/`Rollback` bodies as functions on the abstract schema.  The
fallibility of the store's transactional primitives (`Begin`, `Create`,
`Delete`, `Commit`) is modelled by an oracle `DBEnv`, keyed by the id of the
unit being processed; a `Create` of a record whose id is already present
also fails, reflecting the `primaryKey` constraint on `MigrationRecord.ID`.
-/

/-- A row of the migration record table: `ID` (primary key) and
`AppliedAt` (set by the store at insertion time). -/
structure MigrationRecord where
  id : String
  appliedAt : Nat
deriving Repr, DecidableEq

/-- A migration unit (the Go `Migration` interface): its `ID()` and its
forward (`Migrate`) and backward (`Rollback`) bodies, acting on the
abstract schema state and possibly failing. -/
structure Migration (σ : Type) where
  id : String
  migrate : σ → Except String σ
  rollback : σ → Except String σ

/-- Failure oracle for the store's transactional primitives, keyed by the
id of the migration unit being processed: `some e` means that primitive
fails with message `e` for that unit. -/
structure DBEnv where
  beginErr : String → Option String
  insertErr : String → Option String
  deleteErr : String → Option String
  commitErr : String → Option String

/-- The environment in which every transactional primitive succeeds. -/
def DBEnv.ok : DBEnv :=
  ⟨fun _ => none, fun _ => none, fun _ => none, fun _ => none⟩

/-- The persistent store: whether the record table exists, its rows, the
abstract schema state, and the monotone clock used for `applied_at`. -/
structure Store (σ : Type) where
  tableExists : Bool
  records : List MigrationRecord
  schema : σ
  clock : Nat
deriving Repr

/-- Outcome of one `Migrate()` or `Rollback(n)` call: the returned error
(if any), the store afterwards, the ids of the units committed by this
call in execution order (the "successful" log lines), and the ids of the
units whose transaction was entered (the "Running migration" /
"Rolling back migration" log lines). -/
structure RunResult (σ : Type) where
  err : Option String
  store : Store σ
  done : List String
  attempted : List String

/-- The applied-set membership test `appliedMap[id]` that `Migrate()`
builds once from the records read at the start of the call. -/
def appliedPred (st : Store σ) (i : String) : Bool :=
  st.records.any (fun r => r.id == i)

/-- `AutoMigrate(&MigrationRecord{})`: create the record table if absent. -/
def ensured (st : Store σ) : Store σ :=
  { st with tableExists := true }

/-- One apply transaction of `Migrate()`: `Begin`, the unit's forward
body, `Create` of the unit's record (failing on a duplicate primary key
or by the oracle), `Commit`.  On any failure the transaction is rolled
back, leaving the store unchanged. -/
def applyUnit (env : DBEnv) (u : Migration σ) (st : Store σ) :
    Option String × Store σ :=
  match env.beginErr u.id with
  | some e => (some ("failed to begin transaction: " ++ e), st)
  | none =>
    match u.migrate st.schema with
    | Except.error e => (some ("migration " ++ u.id ++ " failed: " ++ e), st)
    | Except.ok sch =>
      if st.records.any (fun r => r.id == u.id) then
        (some ("failed to record migration " ++ u.id ++
          ": duplicate key value violates unique constraint"), st)
      else
        match env.insertErr u.id with
        | some e => (some ("failed to record migration " ++ u.id ++ ": " ++ e), st)
        | none =>
          match env.commitErr u.id with
          | some e => (some ("failed to commit migration " ++ u.id ++ ": " ++ e), st)
          | none =>
            (none, ⟨st.tableExists, st.records ++ [⟨u.id, st.clock⟩], sch, st.clock + 1⟩)

/-- The per-unit loop of `Migrate()`: iterate the registry in order past a
fixed applied-set predicate `p`; run each pending unit's transaction and
abort the whole call on its first failure. -/
def migrateLoop (env : DBEnv) (p : String → Bool) :
    List (Migration σ) → Store σ → RunResult σ
  | [], st => ⟨none, st, [], []⟩
  | u :: rest, st =>
    if p u.id then migrateLoop env p rest st
    else
      match applyUnit env u st with
      | (some e, st1) => ⟨some e, st1, [], [u.id]⟩
      | (none, st1) =>
        let res := migrateLoop env p rest st1
        ⟨res.err, res.store, u.id :: res.done, u.id :: res.attempted⟩

/-- `Migrator.Migrate()`: ensure the record table, read the applied set
once, then run the pending units in registration order. -/
def Migrate (env : DBEnv) (migrations : List (Migration σ)) (st : Store σ) :
    RunResult σ :=
  migrateLoop env (appliedPred st) migrations (ensured st)

/-- The `ORDER BY applied_at DESC` comparison. -/
def appliedDesc (a b : MigrationRecord) : Prop :=
  b.appliedAt ≤ a.appliedAt

instance : DecidableRel appliedDesc :=
  fun a b => Nat.decLe b.appliedAt a.appliedAt

instance : IsTotal MigrationRecord appliedDesc :=
  ⟨fun a b => (Nat.le_total b.appliedAt a.appliedAt).imp id id⟩

instance : IsTrans MigrationRecord appliedDesc :=
  ⟨fun _ _ _ h1 h2 => Nat.le_trans h2 h1⟩

/-- The strict `applied_at` comparison (newer first). -/
def appliedGT (a b : MigrationRecord) : Prop :=
  b.appliedAt < a.appliedAt

instance : IsAntisymm MigrationRecord appliedGT :=
  ⟨fun _ _ h1 h2 => absurd (Nat.lt_trans h1 h2) (Nat.lt_irrefl _)⟩

instance : IsTrans MigrationRecord appliedGT :=
  ⟨fun _ _ _ h1 h2 => Nat.lt_trans h2 h1⟩

/-- The strict `applied_at` comparison (older first). -/
def appliedLT (a b : MigrationRecord) : Prop :=
  a.appliedAt < b.appliedAt

instance : DecidableRel appliedLT :=
  fun a b => Nat.decLt a.appliedAt b.appliedAt

instance : IsTrans MigrationRecord appliedLT :=
  ⟨fun _ _ _ h1 h2 => Nat.lt_trans h1 h2⟩

/-- The record rows ordered by `applied_at` descending. -/
def sortDesc (l : List MigrationRecord) : List MigrationRecord :=
  List.insertionSort appliedDesc l

/-- gorm's `Limit(n)` clause semantics: a negative argument cancels the
limit clause (all rows), a non-negative one keeps at most `n` rows. -/
def limitSelect (n : Int) (l : List MigrationRecord) : List MigrationRecord :=
  if n < 0 then l else l.take n.toNat

/-- The `migrationsMap` lookup of `Rollback(n)`; built by insertion over
the registry, so a later registration of the same id overwrites an
earlier one. -/
def lookupMigration (migrations : List (Migration σ)) (i : String) :
    Option (Migration σ) :=
  migrations.reverse.find? (fun u => u.id == i)

/-- One undo transaction of `Rollback(n)`: `Begin`, the unit's backward
body, `Delete` of the record by primary key, `Commit`.  On any failure
the transaction is rolled back, leaving the store unchanged. -/
def undoUnit (env : DBEnv) (u : Migration σ) (rec : MigrationRecord)
    (st : Store σ) : Option String × Store σ :=
  match env.beginErr rec.id with
  | some e => (some ("failed to begin transaction: " ++ e), st)
  | none =>
    match u.rollback st.schema with
    | Except.error e => (some ("rollback of " ++ rec.id ++ " failed: " ++ e), st)
    | Except.ok sch =>
      match env.deleteErr rec.id with
      | some e =>
        (some ("failed to remove migration record " ++ rec.id ++ ": " ++ e), st)
      | none =>
        match env.commitErr rec.id with
        | some e =>
          (some ("failed to commit rollback of " ++ rec.id ++ ": " ++ e), st)
        | none =>
          (none, ⟨st.tableExists, st.records.filter (fun r => !(r.id == rec.id)),
            sch, st.clock⟩)

/-- The per-record loop of `Rollback(n)`: for each selected record, skip
with a warning when its unit is not in the registry map, otherwise run
the undo transaction and abort the whole call on its first failure. -/
def rollbackLoop (env : DBEnv) (migrations : List (Migration σ)) :
    List MigrationRecord → Store σ → RunResult σ
  | [], st => ⟨none, st, [], []⟩
  | rec :: rest, st =>
    match lookupMigration migrations rec.id with
    | none => rollbackLoop env migrations rest st
    | some u =>
      match undoUnit env u rec st with
      | (some e, st1) => ⟨some e, st1, [], [rec.id]⟩
      | (none, st1) =>
        let res := rollbackLoop env migrations rest st1
        ⟨res.err, res.store, rec.id :: res.done, rec.id :: res.attempted⟩

/-- `Migrator.Rollback(n)`: read the `n` most recently applied records
(`ORDER BY applied_at DESC LIMIT n`) — failing when the record table does
not exist — then undo them in that order.  No validation of `n` is
performed. -/
def Rollback (env : DBEnv) (migrations : List (Migration σ)) (n : Int)
    (st : Store σ) : RunResult σ :=
  if st.tableExists then
    rollbackLoop env migrations (limitSelect n (sortDesc st.records)) st
  else
    ⟨some "failed to get applied migrations: relation does not exist", st, [], []⟩

/-- The store states reachable from a fresh store by any sequence of
`Migrate()` and `Rollback(n)` calls (successful or failing) against a
fixed registry. -/
inductive Reachable (migrations : List (Migration σ)) (sch : σ) : Store σ → Prop
  | init : Reachable migrations sch ⟨false, [], sch, 0⟩
  | migrate (env : DBEnv) {st : Store σ} :
      Reachable migrations sch st →
      Reachable migrations sch (Migrate env migrations st).store
  | rollback (env : DBEnv) (n : Int) {st : Store σ} :
      Reachable migrations sch st →
      Reachable migrations sch (Rollback env migrations n st).store

/-- The store invariant maintained by the engine: the recorded ids are an
initial segment of the registry's registration order, the rows are
ordered by strictly increasing `applied_at`, and every timestamp is below
the store's clock. -/
def StoreInv (migrations : List (Migration σ)) (st : Store σ) : Prop :=
  (∃ m, st.records.map (fun r => r.id) =
    (migrations.map (fun u => u.id)).take m) ∧
  List.Pairwise appliedLT st.records ∧
  ∀ r ∈ st.records, r.appliedAt < st.clock

/-- A sample migration unit for concrete runs: its forward bumps the
abstract schema counter, its backward undoes the bump. -/
def incUnit (i : String) : Migration Nat :=
  ⟨i, fun s => Except.ok (s + 1), fun s => Except.ok (s - 1)⟩

/-- A sample migration unit whose forward and backward bodies fail. -/
def badUnit (i : String) : Migration Nat :=
  ⟨i, fun _ => Except.error "boom", fun _ => Except.error "boom"⟩

/-- A fresh store: no record table, no records. -/
def freshStore : Store Nat :=
  ⟨false, [], 0, 0⟩

/-- A sample store holding two applied records in timestamp order. -/
def twoStore : Store Nat :=
  ⟨true, [⟨"001_create_users_table", 0⟩, ⟨"002_create_folders_table", 1⟩], 2, 2⟩

/-- A sample store whose application order disagrees with the lexical
order of the ids: `"002_b"` was applied before `"001_a"`. -/
def skewStore : Store Nat :=
  ⟨true, [⟨"002_b", 0⟩, ⟨"001_a", 1⟩], 2, 2⟩

/-! ### Helper lemmas about one apply / undo transaction -/

theorem applyUnit_spec (env : DBEnv) (u : Migration σ) (st : Store σ) :
    (∃ e, applyUnit env u st = (some e, st)) ∨
    (∃ sch, u.migrate st.schema = Except.ok sch ∧
      applyUnit env u st =
        (none, ⟨st.tableExists, st.records ++ [⟨u.id, st.clock⟩], sch, st.clock + 1⟩)) := by
  cases h1 : env.beginErr u.id with
  | some e =>
    exact Or.inl ⟨"failed to begin transaction: " ++ e, by simp [applyUnit, h1]⟩
  | none =>
    cases h2 : u.migrate st.schema with
    | error e =>
      exact Or.inl ⟨"migration " ++ u.id ++ " failed: " ++ e, by simp [applyUnit, h1, h2]⟩
    | ok sch =>
      cases h3 : st.records.any (fun r => r.id == u.id) with
      | true =>
        exact Or.inl ⟨"failed to record migration " ++ u.id ++
          ": duplicate key value violates unique constraint", by simp [applyUnit, h1, h2, h3]⟩
      | false =>
        cases h4 : env.insertErr u.id with
        | some e =>
          exact Or.inl ⟨"failed to record migration " ++ u.id ++ ": " ++ e,
            by simp [applyUnit, h1, h2, h3, h4]⟩
        | none =>
          cases h5 : env.commitErr u.id with
          | some e =>
            exact Or.inl ⟨"failed to commit migration " ++ u.id ++ ": " ++ e,
              by simp [applyUnit, h1, h2, h3, h4, h5]⟩
          | none =>
            exact Or.inr ⟨sch, rfl, by simp [applyUnit, h1, h2, h3, h4, h5]⟩

theorem undoUnit_spec (env : DBEnv) (u : Migration σ) (rec : MigrationRecord)
    (st : Store σ) :
    (∃ e, undoUnit env u rec st = (some e, st)) ∨
    (∃ sch, u.rollback st.schema = Except.ok sch ∧
      undoUnit env u rec st =
        (none, ⟨st.tableExists, st.records.filter (fun r => !(r.id == rec.id)),
          sch, st.clock⟩)) := by
  cases h1 : env.beginErr rec.id with
  | some e =>
    exact Or.inl ⟨"failed to begin transaction: " ++ e, by simp [undoUnit, h1]⟩
  | none =>
    cases h2 : u.rollback st.schema with
    | error e =>
      exact Or.inl ⟨"rollback of " ++ rec.id ++ " failed: " ++ e, by simp [undoUnit, h1, h2]⟩
    | ok sch =>
      cases h3 : env.deleteErr rec.id with
      | some e =>
        exact Or.inl ⟨"failed to remove migration record " ++ rec.id ++ ": " ++ e,
          by simp [undoUnit, h1, h2, h3]⟩
      | none =>
        cases h4 : env.commitErr rec.id with
        | some e =>
          exact Or.inl ⟨"failed to commit rollback of " ++ rec.id ++ ": " ++ e,
            by simp [undoUnit, h1, h2, h3, h4]⟩
        | none =>
          exact Or.inr ⟨sch, rfl, by simp [undoUnit, h1, h2, h3, h4]⟩

/-! ### One-step reduction lemmas for the loops -/

theorem migrateLoop_nil (env : DBEnv) (p : String → Bool) (st : Store σ) :
    migrateLoop env p [] st = ⟨none, st, [], []⟩ := rfl

theorem migrateLoop_cons_skip (env : DBEnv) (p : String → Bool)
    (u : Migration σ) (rest : List (Migration σ)) (st : Store σ)
    (hp : p u.id = true) :
    migrateLoop env p (u :: rest) st = migrateLoop env p rest st := by
  simp [migrateLoop, hp]

theorem migrateLoop_cons_fail (env : DBEnv) (p : String → Bool)
    (u : Migration σ) (rest : List (Migration σ)) (st st1 : Store σ) (e : String)
    (hp : p u.id = false) (he : applyUnit env u st = (some e, st1)) :
    migrateLoop env p (u :: rest) st = ⟨some e, st1, [], [u.id]⟩ := by
  simp [migrateLoop, hp, he]

theorem migrateLoop_cons_ok (env : DBEnv) (p : String → Bool)
    (u : Migration σ) (rest : List (Migration σ)) (st st1 : Store σ)
    (hp : p u.id = false) (he : applyUnit env u st = (none, st1)) :
    migrateLoop env p (u :: rest) st =
      ⟨(migrateLoop env p rest st1).err, (migrateLoop env p rest st1).store,
       u.id :: (migrateLoop env p rest st1).done,
       u.id :: (migrateLoop env p rest st1).attempted⟩ := by
  simp [migrateLoop, hp, he]

theorem rollbackLoop_nil (env : DBEnv) (ms : List (Migration σ)) (st : Store σ) :
    rollbackLoop env ms [] st = ⟨none, st, [], []⟩ := rfl

theorem rollbackLoop_cons_skip (env : DBEnv) (ms : List (Migration σ))
    (rec : MigrationRecord) (rest : List MigrationRecord) (st : Store σ)
    (hl : lookupMigration ms rec.id = none) :
    rollbackLoop env ms (rec :: rest) st = rollbackLoop env ms rest st := by
  simp [rollbackLoop, hl]

theorem rollbackLoop_cons_fail (env : DBEnv) (ms : List (Migration σ))
    (rec : MigrationRecord) (rest : List MigrationRecord) (st st1 : Store σ)
    (u : Migration σ) (e : String)
    (hl : lookupMigration ms rec.id = some u)
    (he : undoUnit env u rec st = (some e, st1)) :
    rollbackLoop env ms (rec :: rest) st = ⟨some e, st1, [], [rec.id]⟩ := by
  simp [rollbackLoop, hl, he]

theorem rollbackLoop_cons_ok (env : DBEnv) (ms : List (Migration σ))
    (rec : MigrationRecord) (rest : List MigrationRecord) (st st1 : Store σ)
    (u : Migration σ)
    (hl : lookupMigration ms rec.id = some u)
    (he : undoUnit env u rec st = (none, st1)) :
    rollbackLoop env ms (rec :: rest) st =
      ⟨(rollbackLoop env ms rest st1).err, (rollbackLoop env ms rest st1).store,
       rec.id :: (rollbackLoop env ms rest st1).done,
       rec.id :: (rollbackLoop env ms rest st1).attempted⟩ := by
  simp [rollbackLoop, hl, he]

/-! ### Structural lemmas about the Migrate loop -/

theorem migrateLoop_append_err (env : DBEnv) (p : String → Bool)
    (ms1 ms2 : List (Migration σ)) (st : Store σ)
    (h : (migrateLoop env p ms1 st).err ≠ none) :
    migrateLoop env p (ms1 ++ ms2) st = migrateLoop env p ms1 st := by
  induction ms1 generalizing st with
  | nil => simp [migrateLoop_nil] at h
  | cons u rest ih =>
    cases hp : p u.id with
    | true =>
      rw [migrateLoop_cons_skip env p u rest st hp] at h
      rw [List.cons_append, migrateLoop_cons_skip env p u _ st hp,
        migrateLoop_cons_skip env p u rest st hp]
      exact ih st h
    | false =>
      rcases applyUnit_spec env u st with ⟨e, heq⟩ | ⟨sch, _, heq⟩
      · rw [List.cons_append, migrateLoop_cons_fail env p u _ st st e hp heq,
          migrateLoop_cons_fail env p u rest st st e hp heq]
      · rw [migrateLoop_cons_ok env p u rest st _ hp heq] at h
        simp only at h
        rw [List.cons_append, migrateLoop_cons_ok env p u _ st _ hp heq,
          migrateLoop_cons_ok env p u rest st _ hp heq, ih _ h]

theorem migrateLoop_append_ok (env : DBEnv) (p : String → Bool)
    (ms1 ms2 : List (Migration σ)) (st : Store σ)
    (h : (migrateLoop env p ms1 st).err = none) :
    migrateLoop env p (ms1 ++ ms2) st =
      ⟨(migrateLoop env p ms2 (migrateLoop env p ms1 st).store).err,
       (migrateLoop env p ms2 (migrateLoop env p ms1 st).store).store,
       (migrateLoop env p ms1 st).done ++
         (migrateLoop env p ms2 (migrateLoop env p ms1 st).store).done,
       (migrateLoop env p ms1 st).attempted ++
         (migrateLoop env p ms2 (migrateLoop env p ms1 st).store).attempted⟩ := by
  induction ms1 generalizing st with
  | nil => simp [migrateLoop_nil]
  | cons u rest ih =>
    cases hp : p u.id with
    | true =>
      rw [migrateLoop_cons_skip env p u rest st hp] at h
      rw [List.cons_append, migrateLoop_cons_skip env p u _ st hp,
        migrateLoop_cons_skip env p u rest st hp]
      exact ih st h
    | false =>
      rcases applyUnit_spec env u st with ⟨e, heq⟩ | ⟨sch, _, heq⟩
      · rw [migrateLoop_cons_fail env p u rest st st e hp heq] at h
        simp at h
      · rw [migrateLoop_cons_ok env p u rest st _ hp heq] at h
        simp only at h
        rw [List.cons_append, migrateLoop_cons_ok env p u _ st _ hp heq,
          migrateLoop_cons_ok env p u rest st _ hp heq, ih _ h]
        simp

theorem migrateLoop_records_ids (env : DBEnv) (p : String → Bool)
    (ms : List (Migration σ)) (st : Store σ) :
    (migrateLoop env p ms st).store.records.map (fun r => r.id) =
      st.records.map (fun r => r.id) ++ (migrateLoop env p ms st).done := by
  induction ms generalizing st with
  | nil => simp [migrateLoop_nil]
  | cons u rest ih =>
    cases hp : p u.id with
    | true =>
      rw [migrateLoop_cons_skip env p u rest st hp]
      exact ih st
    | false =>
      rcases applyUnit_spec env u st with ⟨e, heq⟩ | ⟨sch, _, heq⟩
      · rw [migrateLoop_cons_fail env p u rest st st e hp heq]
        simp
      · rw [migrateLoop_cons_ok env p u rest st _ hp heq]
        simp only
        rw [ih]
        simp

theorem migrateLoop_records_extend (env : DBEnv) (p : String → Bool)
    (ms : List (Migration σ)) (st : Store σ) :
    ∃ l, (migrateLoop env p ms st).store.records = st.records ++ l := by
  induction ms generalizing st with
  | nil => exact ⟨[], by simp [migrateLoop_nil]⟩
  | cons u rest ih =>
    cases hp : p u.id with
    | true =>
      rw [migrateLoop_cons_skip env p u rest st hp]
      exact ih st
    | false =>
      rcases applyUnit_spec env u st with ⟨e, heq⟩ | ⟨sch, _, heq⟩
      · rw [migrateLoop_cons_fail env p u rest st st e hp heq]
        exact ⟨[], by simp⟩
      · rw [migrateLoop_cons_ok env p u rest st _ hp heq]
        simp only
        rcases ih (⟨st.tableExists, st.records ++ [⟨u.id, st.clock⟩], sch,
          st.clock + 1⟩ : Store σ) with ⟨l, hl⟩
        exact ⟨⟨u.id, st.clock⟩ :: l, by rw [hl]; simp⟩

theorem migrateLoop_done_sub (env : DBEnv) (p : String → Bool)
    (ms : List (Migration σ)) (st : Store σ) :
    ∀ x ∈ (migrateLoop env p ms st).done, x ∈ ms.map (fun u => u.id) := by
  induction ms generalizing st with
  | nil => simp [migrateLoop_nil]
  | cons u rest ih =>
    cases hp : p u.id with
    | true =>
      rw [migrateLoop_cons_skip env p u rest st hp]
      intro x hx
      simp only [List.map_cons, List.mem_cons]
      exact Or.inr (ih st x hx)
    | false =>
      rcases applyUnit_spec env u st with ⟨e, heq⟩ | ⟨sch, _, heq⟩
      · rw [migrateLoop_cons_fail env p u rest st st e hp heq]
        simp
      · rw [migrateLoop_cons_ok env p u rest st _ hp heq]
        simp only [List.map_cons, List.mem_cons]
        intro x hx
        rcases hx with h | h
        · exact Or.inl h
        · exact Or.inr (ih _ x h)

theorem migrateLoop_tableKept (env : DBEnv) (p : String → Bool)
    (ms : List (Migration σ)) (st : Store σ) :
    (migrateLoop env p ms st).store.tableExists = st.tableExists := by
  induction ms generalizing st with
  | nil => simp [migrateLoop_nil]
  | cons u rest ih =>
    cases hp : p u.id with
    | true =>
      rw [migrateLoop_cons_skip env p u rest st hp]
      exact ih st
    | false =>
      rcases applyUnit_spec env u st with ⟨e, heq⟩ | ⟨sch, _, heq⟩
      · rw [migrateLoop_cons_fail env p u rest st st e hp heq]
      · rw [migrateLoop_cons_ok env p u rest st _ hp heq]
        simp only
        rw [ih]

theorem migrateLoop_ok_done (env : DBEnv) (p : String → Bool)
    (ms : List (Migration σ)) (st : Store σ)
    (h : (migrateLoop env p ms st).err = none) :
    (migrateLoop env p ms st).done =
      (ms.filter (fun u => !(p u.id))).map (fun u => u.id) ∧
    (migrateLoop env p ms st).attempted = (migrateLoop env p ms st).done := by
  induction ms generalizing st with
  | nil => simp [migrateLoop_nil]
  | cons u rest ih =>
    cases hp : p u.id with
    | true =>
      rw [migrateLoop_cons_skip env p u rest st hp] at h ⊢
      rcases ih st h with ⟨h1, h2⟩
      refine ⟨?_, h2⟩
      rw [h1]
      simp [List.filter_cons, hp]
    | false =>
      rcases applyUnit_spec env u st with ⟨e, heq⟩ | ⟨sch, _, heq⟩
      · rw [migrateLoop_cons_fail env p u rest st st e hp heq] at h
        simp at h
      · rw [migrateLoop_cons_ok env p u rest st _ hp heq] at h ⊢
        simp only at h ⊢
        rcases ih _ h with ⟨h1, h2⟩
        rw [h1, h2, h1]
        simp [List.filter_cons, hp]

theorem migrateLoop_pending_take (env : DBEnv) (p : String → Bool)
    (ms : List (Migration σ)) (st : Store σ)
    (hpend : ∀ u ∈ ms, p u.id = false) :
    ∃ j, (migrateLoop env p ms st).done = (ms.take j).map (fun u => u.id) := by
  induction ms generalizing st with
  | nil => exact ⟨0, by simp [migrateLoop_nil]⟩
  | cons u rest ih =>
    have hp : p u.id = false := hpend u (List.mem_cons_self u rest)
    rcases applyUnit_spec env u st with ⟨e, heq⟩ | ⟨sch, _, heq⟩
    · rw [migrateLoop_cons_fail env p u rest st st e hp heq]
      exact ⟨0, by simp⟩
    · rw [migrateLoop_cons_ok env p u rest st _ hp heq]
      simp only
      rcases ih ⟨st.tableExists, st.records ++ [⟨u.id, st.clock⟩], sch, st.clock + 1⟩
        (fun v hv => hpend v (List.mem_cons_of_mem u hv)) with ⟨j, hj⟩
      exact ⟨j + 1, by rw [hj]; simp⟩

theorem appliedPred_eq_mem (st : Store σ) (i : String) :
    appliedPred st i = true ↔ i ∈ st.records.map (fun r => r.id) := by
  simp [appliedPred, List.any_eq_true]

theorem ensured_eq_self (st : Store σ) (h : st.tableExists = true) :
    ensured st = st := by
  cases st with
  | mk te r s c =>
    simp only [ensured]
    simp at h
    rw [h]

theorem migrateLoop_idem (env : DBEnv) (ms : List (Migration σ)) :
    ∀ (st : Store σ) (p : String → Bool),
    (ms.map (fun u => u.id)).Nodup →
    (∀ u ∈ ms, p u.id = true → u.id ∈ st.records.map (fun r => r.id)) →
    (∀ u ∈ ms, p u.id = false → u.id ∉ st.records.map (fun r => r.id)) →
    (migrateLoop env (appliedPred (migrateLoop env p ms st).store) ms
        (migrateLoop env p ms st).store).store = (migrateLoop env p ms st).store ∧
    (migrateLoop env (appliedPred (migrateLoop env p ms st).store) ms
        (migrateLoop env p ms st).store).done = [] := by
  induction ms with
  | nil => intro st p _ _ _; simp [migrateLoop_nil]
  | cons u rest ih =>
    intro st p hnd h2 h3
    have hnd' : (rest.map (fun u => u.id)).Nodup := by
      simpa using hnd.of_cons
    have hu_notin : u.id ∉ rest.map (fun v => v.id) := by
      have := hnd
      simp only [List.map_cons, List.nodup_cons] at this
      exact this.1
    cases hp : p u.id with
    | true =>
      rw [migrateLoop_cons_skip env p u rest st hp]
      have hin : u.id ∈ (migrateLoop env p rest st).store.records.map (fun r => r.id) := by
        rw [migrateLoop_records_ids]
        exact List.mem_append_left _ (h2 u (List.mem_cons_self u rest) hp)
      have hp2 : appliedPred (migrateLoop env p rest st).store u.id = true :=
        (appliedPred_eq_mem _ _).mpr hin
      rw [migrateLoop_cons_skip env _ u rest _ hp2]
      exact ih st p hnd'
        (fun v hv ht => h2 v (List.mem_cons_of_mem u hv) ht)
        (fun v hv hf => h3 v (List.mem_cons_of_mem u hv) hf)
    | false =>
      have hu_st : u.id ∉ st.records.map (fun r => r.id) :=
        h3 u (List.mem_cons_self u rest) hp
      rcases applyUnit_spec env u st with ⟨e, heq⟩ | ⟨sch, _, heq⟩
      · rw [migrateLoop_cons_fail env p u rest st st e hp heq]
        simp only
        have hp2 : appliedPred st u.id = false := by
          cases hq : appliedPred st u.id with
          | true => exact absurd ((appliedPred_eq_mem st u.id).mp hq) hu_st
          | false => rfl
        rw [migrateLoop_cons_fail env _ u rest st st e hp2 heq]
        exact ⟨rfl, rfl⟩
      · rw [migrateLoop_cons_ok env p u rest st _ hp heq]
        simp only
        have hin : u.id ∈ (migrateLoop env p rest
            (⟨st.tableExists, st.records ++ [⟨u.id, st.clock⟩], sch, st.clock + 1⟩ :
              Store σ)).store.records.map (fun r => r.id) := by
          rw [migrateLoop_records_ids]
          refine List.mem_append_left _ ?_
          simp
        have hp2 : appliedPred (migrateLoop env p rest
            (⟨st.tableExists, st.records ++ [⟨u.id, st.clock⟩], sch, st.clock + 1⟩ :
              Store σ)).store u.id = true :=
          (appliedPred_eq_mem _ _).mpr hin
        rw [migrateLoop_cons_skip env _ u rest _ hp2]
        refine ih ⟨st.tableExists, st.records ++ [⟨u.id, st.clock⟩], sch, st.clock + 1⟩
          p hnd' ?_ ?_
        · intro v hv ht
          have := h2 v (List.mem_cons_of_mem u hv) ht
          simp only [List.map_append]
          exact List.mem_append_left _ this
        · intro v hv hf
          have hvs := h3 v (List.mem_cons_of_mem u hv) hf
          have hvne : v.id ≠ u.id := by
            intro hcontra
            exact hu_notin (hcontra ▸ List.mem_map_of_mem (fun w => w.id) hv)
          simp only [List.map_append, List.mem_append]
          rintro (hc | hc)
          · exact hvs hc
          · simp at hc
            exact hvne hc

/-! ### Claim theorems -/

/-- C1: `Migrate()` is idempotent.  For every store state and every
registry (whose unit ids are unique, as the data model requires), running
`Migrate()` twice in succession yields the same store — the same record
set and the same schema state — as running it once, and the second run
commits zero units: every unit whose id is already in the applied set is
skipped, not re-run. -/
theorem migrate_idempotent (env : DBEnv) (ms : List (Migration σ)) (st : Store σ)
    (hnd : (ms.map (fun u => u.id)).Nodup) :
    (Migrate env ms (Migrate env ms st).store).store = (Migrate env ms st).store ∧
    (Migrate env ms (Migrate env ms st).store).done = [] := by
  unfold Migrate
  have htab : (migrateLoop env (appliedPred st) ms (ensured st)).store.tableExists = true := by
    rw [migrateLoop_tableKept]
    rfl
  rw [ensured_eq_self _ htab]
  have h2 : ∀ u ∈ ms, appliedPred st u.id = true →
      u.id ∈ (ensured st).records.map (fun r => r.id) := by
    intro u _ hu
    exact (appliedPred_eq_mem st u.id).mp hu
  have h3 : ∀ u ∈ ms, appliedPred st u.id = false →
      u.id ∉ (ensured st).records.map (fun r => r.id) := by
    intro u _ hu hmem
    rw [(appliedPred_eq_mem st u.id).mpr hmem] at hu
    exact Bool.noConfusion hu
  exact migrateLoop_idem env ms (ensured st) (appliedPred st) hnd h2 h3

theorem migrate_idempotent_witness :
    (Migrate DBEnv.ok [incUnit "001_create_users_table", incUnit "002_create_folders_table"]
        (Migrate DBEnv.ok [incUnit "001_create_users_table",
          incUnit "002_create_folders_table"] freshStore).store).store =
      (Migrate DBEnv.ok [incUnit "001_create_users_table",
        incUnit "002_create_folders_table"] freshStore).store ∧
    (Migrate DBEnv.ok [incUnit "001_create_users_table", incUnit "002_create_folders_table"]
        (Migrate DBEnv.ok [incUnit "001_create_users_table",
          incUnit "002_create_folders_table"] freshStore).store).done = [] :=
  migrate_idempotent DBEnv.ok
    [incUnit "001_create_users_table", incUnit "002_create_folders_table"]
    freshStore (by decide)

/-- C3: `Migrate()` applies pending units in the Registry's registration
(insertion) order, not in lexical order of their id strings: on a
successful run the committed ids are exactly the pending units of the
registry list, in list order, and these are also exactly the units whose
transactions were entered. -/
theorem migrate_registration_order (env : DBEnv) (ms : List (Migration σ))
    (st : Store σ) (h : (Migrate env ms st).err = none) :
    (Migrate env ms st).done =
      (ms.filter (fun u => !(appliedPred st u.id))).map (fun u => u.id) ∧
    (Migrate env ms st).attempted = (Migrate env ms st).done := by
  unfold Migrate at h ⊢
  exact migrateLoop_ok_done env (appliedPred st) ms (ensured st) h

theorem migrate_registration_order_witness :
    (Migrate DBEnv.ok [incUnit "002_create_folders_table", incUnit "001_create_users_table"]
        freshStore).done =
      (([incUnit "002_create_folders_table",
        incUnit "001_create_users_table"]).filter
          (fun u => !(appliedPred freshStore u.id))).map (fun u => u.id) ∧
    (Migrate DBEnv.ok [incUnit "002_create_folders_table", incUnit "001_create_users_table"]
        freshStore).attempted =
      (Migrate DBEnv.ok [incUnit "002_create_folders_table",
        incUnit "001_create_users_table"] freshStore).done :=
  migrate_registration_order DBEnv.ok
    [incUnit "002_create_folders_table", incUnit "001_create_users_table"]
    freshStore (by decide)

/-- C4: per-unit bookkeeping is atomic with the schema change.  An apply
transaction either leaves the store exactly as it was (any error inside
rolls the transaction back) or appends exactly the unit's record together
with the forward-updated schema; an undo transaction either leaves the
store exactly as it was or removes exactly the target record together
with the backward-updated schema.  Existing records are never modified:
apply keeps every existing record, undo only ever removes records. -/
theorem unit_record_atomic (env : DBEnv) (u : Migration σ) (rec : MigrationRecord)
    (st : Store σ) :
    ((∃ e, applyUnit env u st = (some e, st)) ∨
      (∃ sch, u.migrate st.schema = Except.ok sch ∧
        applyUnit env u st =
          (none, ⟨st.tableExists, st.records ++ [⟨u.id, st.clock⟩], sch, st.clock + 1⟩))) ∧
    ((∃ e, undoUnit env u rec st = (some e, st)) ∨
      (∃ sch, u.rollback st.schema = Except.ok sch ∧
        undoUnit env u rec st =
          (none, ⟨st.tableExists, st.records.filter (fun r => !(r.id == rec.id)),
            sch, st.clock⟩))) ∧
    (∀ r ∈ st.records, r ∈ (applyUnit env u st).2.records) ∧
    (∀ r ∈ (undoUnit env u rec st).2.records, r ∈ st.records) := by
  refine ⟨applyUnit_spec env u st, undoUnit_spec env u rec st, ?_, ?_⟩
  · intro r hr
    rcases applyUnit_spec env u st with ⟨e, heq⟩ | ⟨sch, _, heq⟩
    · rw [heq]
      exact hr
    · rw [heq]
      exact List.mem_append_left _ hr
  · intro r hr
    rcases undoUnit_spec env u rec st with ⟨e, heq⟩ | ⟨sch, _, heq⟩
    · rw [heq] at hr
      exact hr
    · rw [heq] at hr
      exact List.mem_of_mem_filter hr

/-- C2: `Migrate()` is fail-fast and non-partial.  If, after the units
`ms1` have been processed successfully, the next pending unit `u` fails —
its forward body raises an error, or the insert of its record fails —
then the whole call returns an error annotated with `u`'s id, `u`'s
transaction is rolled back, no unit after `u` is attempted, and the store
afterwards holds the records of exactly the units committed before the
failure; `u`'s own record is absent. -/
theorem migrate_failFast (env : DBEnv) (ms1 ms2 : List (Migration σ))
    (u : Migration σ) (st : Store σ)
    (hnd : (((ms1 ++ u :: ms2)).map (fun v => v.id)).Nodup)
    (hpend : appliedPred st u.id = false)
    (h1 : (migrateLoop env (appliedPred st) ms1 (ensured st)).err = none)
    (hb : env.beginErr u.id = none)
    (hfail :
      (∃ e, u.migrate (migrateLoop env (appliedPred st) ms1 (ensured st)).store.schema =
        Except.error e) ∨
      ((∃ s, u.migrate (migrateLoop env (appliedPred st) ms1 (ensured st)).store.schema =
        Except.ok s) ∧ env.insertErr u.id ≠ none)) :
    (∃ e, (Migrate env (ms1 ++ u :: ms2) st).err = some e ∧
      ∃ s1 s2, e = s1 ++ u.id ++ s2) ∧
    (Migrate env (ms1 ++ u :: ms2) st).store =
      (migrateLoop env (appliedPred st) ms1 (ensured st)).store ∧
    (Migrate env (ms1 ++ u :: ms2) st).done =
      (migrateLoop env (appliedPred st) ms1 (ensured st)).done ∧
    (Migrate env (ms1 ++ u :: ms2) st).attempted =
      (migrateLoop env (appliedPred st) ms1 (ensured st)).attempted ++ [u.id] ∧
    u.id ∉ (Migrate env (ms1 ++ u :: ms2) st).store.records.map (fun r => r.id) := by
  unfold Migrate
  rw [migrateLoop_append_ok env (appliedPred st) ms1 (u :: ms2) (ensured st) h1]
  -- u's id is not among the records after the successful prefix run
  have hunotrec : u.id ∉
      (migrateLoop env (appliedPred st) ms1 (ensured st)).store.records.map
        (fun r => r.id) := by
    rw [migrateLoop_records_ids]
    intro hmem
    rcases List.mem_append.mp hmem with hc | hc
    · have : appliedPred st u.id = true := (appliedPred_eq_mem st u.id).mpr hc
      rw [hpend] at this
      exact Bool.noConfusion this
    · have hin1 : u.id ∈ ms1.map (fun v => v.id) :=
        migrateLoop_done_sub env (appliedPred st) ms1 (ensured st) u.id hc
      have hdisj := (List.nodup_append.mp (by
        simpa using hnd : (ms1.map (fun v => v.id) ++
          (u.id :: ms2.map (fun v => v.id))).Nodup)).2.2
      exact hdisj hin1 (List.mem_cons_self _ _)
  have hdup : (migrateLoop env (appliedPred st) ms1
      (ensured st)).store.records.any (fun r => r.id == u.id) = false := by
    cases hq : (migrateLoop env (appliedPred st) ms1
        (ensured st)).store.records.any (fun r => r.id == u.id) with
    | true => exact absurd ((appliedPred_eq_mem _ u.id).mp hq) hunotrec
    | false => rfl
  -- the failing transaction leaves the store unchanged and yields an
  -- id-annotated error
  have happly : ∃ e, applyUnit env u
      (migrateLoop env (appliedPred st) ms1 (ensured st)).store =
      (some e, (migrateLoop env (appliedPred st) ms1 (ensured st)).store) ∧
      ∃ s1 s2, e = s1 ++ u.id ++ s2 := by
    rcases hfail with ⟨e, he⟩ | ⟨⟨s, hs⟩, hins⟩
    · exact ⟨"migration " ++ u.id ++ " failed: " ++ e,
        by simp [applyUnit, hb, he], "migration ", " failed: " ++ e,
        by rw [String.append_assoc]⟩
    · rcases Option.ne_none_iff_exists.mp hins with ⟨e, he⟩
      exact ⟨"failed to record migration " ++ u.id ++ ": " ++ e,
        by simp [applyUnit, hb, hs, hdup, he.symm], "failed to record migration ",
        ": " ++ e, by rw [String.append_assoc]⟩
  rcases happly with ⟨e, heq, hs1⟩
  rw [migrateLoop_cons_fail env (appliedPred st) u ms2 _ _ e hpend heq]
  refine ⟨⟨e, rfl, hs1⟩, rfl, by simp, by simp, hunotrec⟩

theorem migrate_failFast_witness :
    (∃ e, (Migrate DBEnv.ok ([incUnit "001_create_users_table"] ++
        badUnit "002_create_folders_table" :: [incUnit "003_create_files_table"])
        freshStore).err = some e ∧
      ∃ s1 s2, e = s1 ++ (badUnit "002_create_folders_table").id ++ s2) ∧
    (Migrate DBEnv.ok ([incUnit "001_create_users_table"] ++
        badUnit "002_create_folders_table" :: [incUnit "003_create_files_table"])
        freshStore).store =
      (migrateLoop DBEnv.ok (appliedPred freshStore) [incUnit "001_create_users_table"]
        (ensured freshStore)).store ∧
    (Migrate DBEnv.ok ([incUnit "001_create_users_table"] ++
        badUnit "002_create_folders_table" :: [incUnit "003_create_files_table"])
        freshStore).done =
      (migrateLoop DBEnv.ok (appliedPred freshStore) [incUnit "001_create_users_table"]
        (ensured freshStore)).done ∧
    (Migrate DBEnv.ok ([incUnit "001_create_users_table"] ++
        badUnit "002_create_folders_table" :: [incUnit "003_create_files_table"])
        freshStore).attempted =
      (migrateLoop DBEnv.ok (appliedPred freshStore) [incUnit "001_create_users_table"]
        (ensured freshStore)).attempted ++ [(badUnit "002_create_folders_table").id] ∧
    (badUnit "002_create_folders_table").id ∉
      (Migrate DBEnv.ok ([incUnit "001_create_users_table"] ++
        badUnit "002_create_folders_table" :: [incUnit "003_create_files_table"])
        freshStore).store.records.map (fun r => r.id) :=
  migrate_failFast DBEnv.ok [incUnit "001_create_users_table"]
    [incUnit "003_create_files_table"] (badUnit "002_create_folders_table")
    freshStore (by decide) (by decide) (by decide) rfl
    (Or.inl ⟨"boom", rfl⟩)

/-! ### Lemmas about the descending sort and the registry lookup -/

theorem sortDesc_perm (l : List MigrationRecord) : List.Perm (sortDesc l) l :=
  List.perm_insertionSort appliedDesc l

theorem sortDesc_sorted (l : List MigrationRecord) :
    List.Sorted appliedDesc (sortDesc l) :=
  List.sorted_insertionSort appliedDesc l

theorem sortDesc_sortedGT (l : List MigrationRecord)
    (h : (l.map (fun r => r.appliedAt)).Nodup) :
    List.Sorted appliedGT (sortDesc l) := by
  have hperm : List.Perm ((sortDesc l).map (fun r => r.appliedAt))
      (l.map (fun r => r.appliedAt)) := (sortDesc_perm l).map _
  have hnd : ((sortDesc l).map (fun r => r.appliedAt)).Nodup :=
    hperm.nodup_iff.mpr h
  have hne : List.Pairwise (fun a b : MigrationRecord =>
      a.appliedAt ≠ b.appliedAt) (sortDesc l) :=
    List.pairwise_map.mp hnd
  have hand := (sortDesc_sorted l).and hne
  exact hand.imp (fun hab =>
    Nat.lt_of_le_of_ne hab.1 (fun hc => hab.2 hc.symm))

theorem sortDesc_eq_reverse (l : List MigrationRecord)
    (h : List.Pairwise appliedLT l) : sortDesc l = l.reverse := by
  have hkeys : (l.map (fun r => r.appliedAt)).Nodup :=
    List.pairwise_map.mpr (h.imp (fun hab => Nat.ne_of_lt hab))
  have hs1 : List.Sorted appliedGT (sortDesc l) := sortDesc_sortedGT l hkeys
  have hs2 : List.Sorted appliedGT l.reverse :=
    List.pairwise_reverse.mpr (h.imp (fun hab => hab))
  have hperm : List.Perm (sortDesc l) l.reverse :=
    (sortDesc_perm l).trans l.reverse_perm.symm
  exact List.eq_of_perm_of_sorted hperm hs1 hs2

theorem lookupMigration_some (ms : List (Migration σ)) (i : String)
    (u : Migration σ) (h : lookupMigration ms i = some u) :
    u ∈ ms ∧ u.id = i := by
  unfold lookupMigration at h
  refine ⟨List.mem_reverse.mp (List.mem_of_find?_eq_some h), ?_⟩
  have := List.find?_some h
  simpa using this

theorem lookupMigration_none_iff (ms : List (Migration σ)) (i : String) :
    lookupMigration ms i = none ↔ i ∉ ms.map (fun u => u.id) := by
  unfold lookupMigration
  rw [List.find?_eq_none]
  constructor
  · intro h hmem
    rcases List.mem_map.mp hmem with ⟨u, hu, hui⟩
    exact h u (List.mem_reverse.mpr hu) (by simp [hui])
  · intro h u hu hui
    refine h (List.mem_map.mpr ⟨u, List.mem_reverse.mp hu, ?_⟩)
    simpa using hui

theorem lookupMigration_isSome (ms : List (Migration σ)) (i : String)
    (h : i ∈ ms.map (fun u => u.id)) : ∃ u, lookupMigration ms i = some u := by
  cases hq : lookupMigration ms i with
  | none => exact absurd h ((lookupMigration_none_iff ms i).mp hq)
  | some u => exact ⟨u, rfl⟩

/-! ### Structural lemmas about the Rollback loop -/

theorem rollbackLoop_append_err (env : DBEnv) (ms : List (Migration σ))
    (sel1 sel2 : List MigrationRecord) (st : Store σ)
    (h : (rollbackLoop env ms sel1 st).err ≠ none) :
    rollbackLoop env ms (sel1 ++ sel2) st = rollbackLoop env ms sel1 st := by
  induction sel1 generalizing st with
  | nil => simp [rollbackLoop_nil] at h
  | cons rec rest ih =>
    cases hl : lookupMigration ms rec.id with
    | none =>
      rw [rollbackLoop_cons_skip env ms rec rest st hl] at h
      rw [List.cons_append, rollbackLoop_cons_skip env ms rec _ st hl,
        rollbackLoop_cons_skip env ms rec rest st hl]
      exact ih st h
    | some u =>
      rcases undoUnit_spec env u rec st with ⟨e, heq⟩ | ⟨sch, _, heq⟩
      · rw [List.cons_append, rollbackLoop_cons_fail env ms rec _ st st u e hl heq,
          rollbackLoop_cons_fail env ms rec rest st st u e hl heq]
      · rw [rollbackLoop_cons_ok env ms rec rest st _ u hl heq] at h
        simp only at h
        rw [List.cons_append, rollbackLoop_cons_ok env ms rec _ st _ u hl heq,
          rollbackLoop_cons_ok env ms rec rest st _ u hl heq, ih _ h]

theorem rollbackLoop_append_ok (env : DBEnv) (ms : List (Migration σ))
    (sel1 sel2 : List MigrationRecord) (st : Store σ)
    (h : (rollbackLoop env ms sel1 st).err = none) :
    rollbackLoop env ms (sel1 ++ sel2) st =
      ⟨(rollbackLoop env ms sel2 (rollbackLoop env ms sel1 st).store).err,
       (rollbackLoop env ms sel2 (rollbackLoop env ms sel1 st).store).store,
       (rollbackLoop env ms sel1 st).done ++
         (rollbackLoop env ms sel2 (rollbackLoop env ms sel1 st).store).done,
       (rollbackLoop env ms sel1 st).attempted ++
         (rollbackLoop env ms sel2 (rollbackLoop env ms sel1 st).store).attempted⟩ := by
  induction sel1 generalizing st with
  | nil => simp [rollbackLoop_nil]
  | cons rec rest ih =>
    cases hl : lookupMigration ms rec.id with
    | none =>
      rw [rollbackLoop_cons_skip env ms rec rest st hl] at h
      rw [List.cons_append, rollbackLoop_cons_skip env ms rec _ st hl,
        rollbackLoop_cons_skip env ms rec rest st hl]
      exact ih st h
    | some u =>
      rcases undoUnit_spec env u rec st with ⟨e, heq⟩ | ⟨sch, _, heq⟩
      · rw [rollbackLoop_cons_fail env ms rec rest st st u e hl heq] at h
        simp at h
      · rw [rollbackLoop_cons_ok env ms rec rest st _ u hl heq] at h
        simp only at h
        rw [List.cons_append, rollbackLoop_cons_ok env ms rec _ st _ u hl heq,
          rollbackLoop_cons_ok env ms rec rest st _ u hl heq, ih _ h]
        simp

theorem rollbackLoop_keeps (env : DBEnv) (ms : List (Migration σ))
    (sel : List MigrationRecord) (st : Store σ) (r : MigrationRecord)
    (hr : r ∈ st.records) (hm : r.id ∉ ms.map (fun u => u.id)) :
    r ∈ (rollbackLoop env ms sel st).store.records := by
  induction sel generalizing st with
  | nil => simpa [rollbackLoop_nil] using hr
  | cons rec rest ih =>
    cases hl : lookupMigration ms rec.id with
    | none =>
      rw [rollbackLoop_cons_skip env ms rec rest st hl]
      exact ih st hr
    | some u =>
      rcases undoUnit_spec env u rec st with ⟨e, heq⟩ | ⟨sch, _, heq⟩
      · rw [rollbackLoop_cons_fail env ms rec rest st st u e hl heq]
        exact hr
      · rw [rollbackLoop_cons_ok env ms rec rest st _ u hl heq]
        simp only
        refine ih _ ?_
        rcases lookupMigration_some ms rec.id u hl with ⟨hu, hui⟩
        have hne : r.id ≠ rec.id := by
          intro hc
          exact hm (hc ▸ hui ▸ List.mem_map_of_mem (fun v => v.id) hu)
        refine List.mem_filter.mpr ⟨hr, ?_⟩
        simp [hne]

theorem rollbackLoop_ok (env : DBEnv) (ms : List (Migration σ))
    (sel : List MigrationRecord) (st : Store σ)
    (hres : ∀ rec ∈ sel, rec.id ∈ ms.map (fun u => u.id))
    (henv : ∀ rec ∈ sel, env.beginErr rec.id = none ∧
      env.deleteErr rec.id = none ∧ env.commitErr rec.id = none)
    (hok : ∀ u ∈ ms, ∀ s, ∃ s', u.rollback s = Except.ok s') :
    (rollbackLoop env ms sel st).err = none ∧
    (rollbackLoop env ms sel st).done = sel.map (fun rec => rec.id) ∧
    (rollbackLoop env ms sel st).store.records =
      st.records.filter (fun r => !((sel.map (fun rec => rec.id)).contains r.id)) := by
  induction sel generalizing st with
  | nil => simp [rollbackLoop_nil]
  | cons rec rest ih =>
    rcases lookupMigration_isSome ms rec.id
      (hres rec (List.mem_cons_self rec rest)) with ⟨u, hl⟩
    rcases lookupMigration_some ms rec.id u hl with ⟨hu, hui⟩
    rcases henv rec (List.mem_cons_self rec rest) with ⟨hb, hd, hc⟩
    rcases hok u hu st.schema with ⟨s', hs'⟩
    have heq : undoUnit env u rec st =
        (none, ⟨st.tableExists, st.records.filter (fun r => !(r.id == rec.id)),
          s', st.clock⟩) := by
      simp [undoUnit, hui, hb, hd, hc, hs']
    rw [rollbackLoop_cons_ok env ms rec rest st _ u hl heq]
    simp only
    rcases ih ⟨st.tableExists, st.records.filter (fun r => !(r.id == rec.id)),
        s', st.clock⟩
      (fun q hq => hres q (List.mem_cons_of_mem rec hq))
      (fun q hq => henv q (List.mem_cons_of_mem rec hq)) with ⟨h1, h2, h3⟩
    refine ⟨h1, by rw [h2]; simp, ?_⟩
    rw [h3]
    simp only [List.filter_filter]
    apply List.filter_congr
    intro r _
    simp only [List.map_cons, List.contains_cons, Bool.not_or]
    exact Bool.and_comm _ _

/-- C5: `Rollback(n)` selects and undoes the `n` most recently applied
records in descending `applied_at` order — true application time, not id
or registration order.  For a store with pairwise distinct timestamps the
undone ids are exactly the selected prefix of the descending sort (newest
first), the descending sort is strictly ordered and is a permutation of
the records, and every non-selected record is strictly older than every
selected one. -/
theorem rollback_order (ms : List (Migration σ)) (n : Int) (st : Store σ)
    (htab : st.tableExists = true)
    (hdist : (st.records.map (fun r => r.appliedAt)).Nodup)
    (hres : ∀ rec ∈ limitSelect n (sortDesc st.records),
      rec.id ∈ ms.map (fun u => u.id))
    (hok : ∀ u ∈ ms, ∀ s, ∃ s', u.rollback s = Except.ok s') :
    (Rollback DBEnv.ok ms n st).done =
      (limitSelect n (sortDesc st.records)).map (fun rec => rec.id) ∧
    List.Sorted appliedGT (sortDesc st.records) ∧
    List.Perm (sortDesc st.records) st.records ∧
    (∀ a ∈ limitSelect n (sortDesc st.records), ∀ b ∈ st.records,
      b ∉ limitSelect n (sortDesc st.records) → b.appliedAt < a.appliedAt) := by
  have hloop := rollbackLoop_ok DBEnv.ok ms (limitSelect n (sortDesc st.records)) st
    hres (fun rec _ => ⟨rfl, rfl, rfl⟩) hok
  have hsorted := sortDesc_sortedGT st.records hdist
  refine ⟨?_, hsorted, sortDesc_perm st.records, ?_⟩
  · simp only [Rollback, htab, if_true]
    exact hloop.2.1
  · intro a ha b hb hbn
    by_cases hn : n < 0
    · exfalso
      have hbsel : b ∈ limitSelect n (sortDesc st.records) := by
        unfold limitSelect
        rw [if_pos hn]
        exact ((sortDesc_perm st.records).mem_iff).mpr hb
      exact hbn hbsel
    · have hsel : limitSelect n (sortDesc st.records) =
          (sortDesc st.records).take n.toNat := by
        unfold limitSelect
        rw [if_neg hn]
      have hbd : b ∈ (sortDesc st.records).drop n.toNat := by
        have hbs : b ∈ sortDesc st.records :=
          ((sortDesc_perm st.records).mem_iff).mpr hb
        rcases List.mem_append.mp ((List.take_append_drop n.toNat
          (sortDesc st.records)) ▸ hbs) with hc | hc
        · exact absurd (hsel ▸ hc) hbn
        · exact hc
      have hpw : List.Pairwise appliedGT
          ((sortDesc st.records).take n.toNat ++ (sortDesc st.records).drop n.toNat) := by
        rw [List.take_append_drop]
        exact hsorted
      exact (List.pairwise_append.mp hpw).2.2 a (hsel ▸ ha) b hbd

theorem rollback_order_witness :
    (Rollback DBEnv.ok [incUnit "001_a", incUnit "002_b"] 1 skewStore).done =
      (limitSelect 1 (sortDesc skewStore.records)).map (fun rec => rec.id) ∧
    List.Sorted appliedGT (sortDesc skewStore.records) ∧
    List.Perm (sortDesc skewStore.records) skewStore.records ∧
    (∀ a ∈ limitSelect 1 (sortDesc skewStore.records), ∀ b ∈ skewStore.records,
      b ∉ limitSelect 1 (sortDesc skewStore.records) → b.appliedAt < a.appliedAt) :=
  rollback_order [incUnit "001_a", incUnit "002_b"] 1 skewStore rfl (by decide)
    (by decide)
    (by
      intro u hu s
      simp only [List.mem_cons, List.not_mem_nil, or_false] at hu
      rcases hu with hu | hu <;> exact ⟨s - 1, by rw [hu]; rfl⟩)

/-- C7: the unknown-unit skip is the single non-fatal case of
`Rollback(n)`.  If a selected record's id is not in the registry map, the
call behaves exactly as if that record had not been selected: the record
itself survives in the store, and the call still succeeds whenever the
remaining selected records all succeed. -/
theorem rollback_unknown_skip (env : DBEnv) (ms : List (Migration σ)) (n : Int)
    (r : MigrationRecord) (sel1 sel2 : List MigrationRecord) (st : Store σ)
    (htab : st.tableExists = true)
    (hsel : limitSelect n (sortDesc st.records) = sel1 ++ r :: sel2)
    (hr : r.id ∉ ms.map (fun u => u.id)) :
    Rollback env ms n st = rollbackLoop env ms (sel1 ++ sel2) st ∧
    (r ∈ st.records → r ∈ (Rollback env ms n st).store.records) ∧
    ((rollbackLoop env ms (sel1 ++ sel2) st).err = none →
      (Rollback env ms n st).err = none) := by
  have hl : lookupMigration ms r.id = none := (lookupMigration_none_iff ms r.id).mpr hr
  have hmain : rollbackLoop env ms (sel1 ++ r :: sel2) st =
      rollbackLoop env ms (sel1 ++ sel2) st := by
    cases herr : (rollbackLoop env ms sel1 st).err with
    | some e =>
      rw [rollbackLoop_append_err env ms sel1 (r :: sel2) st (by rw [herr]; intro hc; exact Option.noConfusion hc),
        rollbackLoop_append_err env ms sel1 sel2 st (by rw [herr]; intro hc; exact Option.noConfusion hc)]
    | none =>
      rw [rollbackLoop_append_ok env ms sel1 (r :: sel2) st herr,
        rollbackLoop_append_ok env ms sel1 sel2 st herr,
        rollbackLoop_cons_skip env ms r sel2 _ hl]
  have hrw : Rollback env ms n st = rollbackLoop env ms (sel1 ++ sel2) st := by
    simp only [Rollback, htab, if_true, hsel]
    exact hmain
  refine ⟨hrw, ?_, ?_⟩
  · intro hmem
    rw [hrw]
    exact rollbackLoop_keeps env ms (sel1 ++ sel2) st r hmem hr
  · intro hnone
    rw [hrw]
    exact hnone

theorem rollback_unknown_skip_witness :
    Rollback DBEnv.ok [incUnit "001_create_users_table"] 1 twoStore =
      rollbackLoop DBEnv.ok [incUnit "001_create_users_table"]
        ([] ++ []) twoStore ∧
    (⟨"002_create_folders_table", 1⟩ ∈ twoStore.records →
      (⟨"002_create_folders_table", 1⟩ : MigrationRecord) ∈
        (Rollback DBEnv.ok [incUnit "001_create_users_table"] 1 twoStore).store.records) ∧
    ((rollbackLoop DBEnv.ok [incUnit "001_create_users_table"]
        ([] ++ []) twoStore).err = none →
      (Rollback DBEnv.ok [incUnit "001_create_users_table"] 1 twoStore).err = none) :=
  rollback_unknown_skip DBEnv.ok [incUnit "001_create_users_table"] 1
    ⟨"002_create_folders_table", 1⟩ [] [] twoStore rfl (by decide) (by decide)

/-- C8: `Rollback(n)` aborts on the first unit failure.  If, after the
selected records `sel1` were undone successfully, the next selected
record's unit fails — its backward body raises an error, or the record
delete or the transaction commit fails — then that unit's transaction is
rolled back and the call returns an error annotated with the failing
unit's id without attempting any remaining selected record; the units
already undone in the same call stay undone. -/
theorem rollback_abort_first_failure (env : DBEnv) (ms : List (Migration σ))
    (n : Int) (rec : MigrationRecord) (u : Migration σ)
    (sel1 sel2 : List MigrationRecord) (st : Store σ)
    (htab : st.tableExists = true)
    (hsel : limitSelect n (sortDesc st.records) = sel1 ++ rec :: sel2)
    (h1 : (rollbackLoop env ms sel1 st).err = none)
    (hl : lookupMigration ms rec.id = some u)
    (hb : env.beginErr rec.id = none)
    (hfail :
      (∃ e, u.rollback (rollbackLoop env ms sel1 st).store.schema = Except.error e) ∨
      ((∃ s, u.rollback (rollbackLoop env ms sel1 st).store.schema = Except.ok s) ∧
        (env.deleteErr rec.id ≠ none ∨ env.commitErr rec.id ≠ none))) :
    ∃ e, Rollback env ms n st =
      ⟨some e, (rollbackLoop env ms sel1 st).store, (rollbackLoop env ms sel1 st).done,
        (rollbackLoop env ms sel1 st).attempted ++ [rec.id]⟩ ∧
      ∃ s1 s2, e = s1 ++ rec.id ++ s2 := by
  have hundo : ∃ e, undoUnit env u rec (rollbackLoop env ms sel1 st).store =
      (some e, (rollbackLoop env ms sel1 st).store) ∧
      ∃ s1 s2, e = s1 ++ rec.id ++ s2 := by
    rcases hfail with ⟨e, he⟩ | ⟨⟨s, hs⟩, hde⟩
    · exact ⟨"rollback of " ++ rec.id ++ " failed: " ++ e,
        by simp [undoUnit, hb, he], "rollback of ", " failed: " ++ e,
        by rw [String.append_assoc]⟩
    · cases hd : env.deleteErr rec.id with
      | some e =>
        exact ⟨"failed to remove migration record " ++ rec.id ++ ": " ++ e,
          by simp [undoUnit, hb, hs, hd], "failed to remove migration record ",
          ": " ++ e, by rw [String.append_assoc]⟩
      | none =>
        have hce : env.commitErr rec.id ≠ none := by
          rcases hde with h | h
          · exact (h hd).elim
          · exact h
        rcases Option.ne_none_iff_exists.mp hce with ⟨e, he⟩
        exact ⟨"failed to commit rollback of " ++ rec.id ++ ": " ++ e,
          by simp [undoUnit, hb, hs, hd, he.symm], "failed to commit rollback of ",
          ": " ++ e, by rw [String.append_assoc]⟩
  rcases hundo with ⟨e, heq, hann⟩
  refine ⟨e, ?_, hann⟩
  simp only [Rollback, htab, if_true, hsel]
  rw [rollbackLoop_append_ok env ms sel1 (rec :: sel2) st h1,
    rollbackLoop_cons_fail env ms rec sel2 _ _ u e hl heq]
  simp

theorem rollback_abort_first_failure_witness :
    ∃ e, Rollback DBEnv.ok
        [incUnit "001_create_users_table", badUnit "002_create_folders_table"]
        1 twoStore =
      ⟨some e,
        (rollbackLoop DBEnv.ok
          [incUnit "001_create_users_table", badUnit "002_create_folders_table"]
          [] twoStore).store,
        (rollbackLoop DBEnv.ok
          [incUnit "001_create_users_table", badUnit "002_create_folders_table"]
          [] twoStore).done,
        (rollbackLoop DBEnv.ok
          [incUnit "001_create_users_table", badUnit "002_create_folders_table"]
          [] twoStore).attempted ++ [(⟨"002_create_folders_table", 1⟩ :
            MigrationRecord).id]⟩ ∧
      ∃ s1 s2, e = s1 ++ (⟨"002_create_folders_table", 1⟩ : MigrationRecord).id ++ s2 :=
  rollback_abort_first_failure DBEnv.ok
    [incUnit "001_create_users_table", badUnit "002_create_folders_table"]
    1 ⟨"002_create_folders_table", 1⟩ (badUnit "002_create_folders_table") [] []
    twoStore rfl (by decide) rfl rfl rfl (Or.inl ⟨"boom", rfl⟩)

/-- C9: `Rollback(n)` performs no validation of `n`.  `Rollback(0)`
returns success and leaves the store unchanged (the select is limited to
zero rows), while a negative `n` drops the limit clause in the store
layer, so `Rollback(-1)` selects and — when every record is resolvable
and every backward succeeds — undoes every applied migration, emptying
the record table. -/
theorem rollback_no_validation (env : DBEnv) (ms : List (Migration σ))
    (st : Store σ) (n : Int) (hneg : n < 0)
    (htab : st.tableExists = true)
    (hres : ∀ rec ∈ st.records, rec.id ∈ ms.map (fun u => u.id))
    (hok : ∀ u ∈ ms, ∀ s, ∃ s', u.rollback s = Except.ok s') :
    Rollback env ms 0 st = ⟨none, st, [], []⟩ ∧
    limitSelect n (sortDesc st.records) = sortDesc st.records ∧
    (Rollback DBEnv.ok ms (-1) st).done =
      (sortDesc st.records).map (fun rec => rec.id) ∧
    (Rollback DBEnv.ok ms (-1) st).store.records = [] := by
  have hres' : ∀ rec ∈ sortDesc st.records, rec.id ∈ ms.map (fun u => u.id) :=
    fun rec h => hres rec ((sortDesc_perm st.records).mem_iff.mp h)
  have hselneg : limitSelect (-1 : Int) (sortDesc st.records) = sortDesc st.records := by
    unfold limitSelect
    rw [if_pos (by norm_num)]
  have hloop := rollbackLoop_ok DBEnv.ok ms (sortDesc st.records) st hres'
    (fun rec _ => ⟨rfl, rfl, rfl⟩) hok
  refine ⟨?_, ?_, ?_, ?_⟩
  · simp only [Rollback, htab, if_true]
    have hz : limitSelect (0 : Int) (sortDesc st.records) = [] := by
      unfold limitSelect
      rw [if_neg (by norm_num)]
      simp
    rw [hz, rollbackLoop_nil]
  · unfold limitSelect
    rw [if_pos hneg]
  · simp only [Rollback, htab, if_true, hselneg]
    exact hloop.2.1
  · simp only [Rollback, htab, if_true, hselneg]
    rw [hloop.2.2]
    rw [List.filter_eq_nil_iff]
    intro r hr
    have hc : ((sortDesc st.records).map (fun rec => rec.id)).contains r.id = true := by
      simp only [List.contains_iff_exists_mem_beq]
      exact ⟨r.id, List.mem_map_of_mem (fun rec => rec.id)
        ((sortDesc_perm st.records).mem_iff.mpr hr), by simp⟩
    simp [hc]
    exact ⟨r, (sortDesc_perm st.records).mem_iff.mpr hr, rfl⟩

theorem rollback_no_validation_witness :
    Rollback DBEnv.ok [incUnit "001_create_users_table",
      incUnit "002_create_folders_table"] 0 twoStore = ⟨none, twoStore, [], []⟩ ∧
    limitSelect (-1) (sortDesc twoStore.records) = sortDesc twoStore.records ∧
    (Rollback DBEnv.ok [incUnit "001_create_users_table",
      incUnit "002_create_folders_table"] (-1) twoStore).done =
      (sortDesc twoStore.records).map (fun rec => rec.id) ∧
    (Rollback DBEnv.ok [incUnit "001_create_users_table",
      incUnit "002_create_folders_table"] (-1) twoStore).store.records = [] :=
  rollback_no_validation DBEnv.ok
    [incUnit "001_create_users_table", incUnit "002_create_folders_table"]
    twoStore (-1) (by norm_num) rfl (by decide)
    (by
      intro u hu s
      simp only [List.mem_cons, List.not_mem_nil, or_false] at hu
      rcases hu with hu | hu <;> exact ⟨s - 1, by rw [hu]; rfl⟩)

/-- C10: only `Migrate()` ensures the record table exists.  `Rollback(n)`
never creates it, so on a fresh store without the record table the
initial read fails and `Rollback` returns that error with the store
untouched, while `Migrate()` on the same store leaves the table
created. -/
theorem rollback_no_table (env : DBEnv) (ms : List (Migration σ)) (n : Int)
    (st : Store σ) (h : st.tableExists = false) :
    (∃ e, (Rollback env ms n st).err = some e) ∧
    (Rollback env ms n st).store = st ∧
    (Rollback env ms n st).store.tableExists = false ∧
    (Migrate env ms st).store.tableExists = true := by
  have hr : Rollback env ms n st =
      ⟨some "failed to get applied migrations: relation does not exist",
        st, [], []⟩ := by
    simp [Rollback, h]
  refine ⟨⟨_, by rw [hr]⟩, by rw [hr], by rw [hr]; exact h, ?_⟩
  unfold Migrate
  rw [migrateLoop_tableKept]
  rfl

theorem rollback_no_table_witness :
    (∃ e, (Rollback DBEnv.ok [incUnit "001_create_users_table"] 1 freshStore).err =
      some e) ∧
    (Rollback DBEnv.ok [incUnit "001_create_users_table"] 1 freshStore).store =
      freshStore ∧
    (Rollback DBEnv.ok [incUnit "001_create_users_table"] 1
      freshStore).store.tableExists = false ∧
    (Migrate DBEnv.ok [incUnit "001_create_users_table"]
      freshStore).store.tableExists = true :=
  rollback_no_table DBEnv.ok [incUnit "001_create_users_table"] 1 freshStore rfl

/-! ### Invariant preservation for the reachability claim -/

theorem migrateLoop_skipAll (env : DBEnv) (p : String → Bool)
    (A B : List (Migration σ)) (st : Store σ)
    (h : ∀ u ∈ A, p u.id = true) :
    migrateLoop env p (A ++ B) st = migrateLoop env p B st := by
  induction A with
  | nil => simp
  | cons u rest ih =>
    rw [List.cons_append,
      migrateLoop_cons_skip env p u _ st (h u (List.mem_cons_self u rest))]
    exact ih (fun v hv => h v (List.mem_cons_of_mem u hv))

theorem migrateLoop_wf (env : DBEnv) (p : String → Bool)
    (ms : List (Migration σ)) (st : Store σ)
    (hpw : List.Pairwise appliedLT st.records)
    (hclk : ∀ r ∈ st.records, r.appliedAt < st.clock) :
    List.Pairwise appliedLT (migrateLoop env p ms st).store.records ∧
    ∀ r ∈ (migrateLoop env p ms st).store.records,
      r.appliedAt < (migrateLoop env p ms st).store.clock := by
  induction ms generalizing st with
  | nil => exact ⟨hpw, hclk⟩
  | cons u rest ih =>
    cases hp : p u.id with
    | true =>
      rw [migrateLoop_cons_skip env p u rest st hp]
      exact ih st hpw hclk
    | false =>
      rcases applyUnit_spec env u st with ⟨e, heq⟩ | ⟨sch, _, heq⟩
      · rw [migrateLoop_cons_fail env p u rest st st e hp heq]
        exact ⟨hpw, hclk⟩
      · rw [migrateLoop_cons_ok env p u rest st _ hp heq]
        simp only
        refine ih ⟨st.tableExists, st.records ++ [⟨u.id, st.clock⟩], sch, st.clock + 1⟩
          ?_ ?_
        · rw [List.pairwise_append]
          refine ⟨hpw, List.pairwise_singleton _ _, ?_⟩
          intro a ha b hb
          rcases List.mem_singleton.mp hb with rfl
          exact hclk a ha
        · intro r hr
          rcases List.mem_append.mp hr with hc | hc
          · exact Nat.lt_trans (hclk r hc) (Nat.lt_succ_self _)
          · rcases List.mem_singleton.mp hc with rfl
            exact Nat.lt_succ_self _

theorem rollbackLoop_inv (env : DBEnv) (ms : List (Migration σ))
    (hndL : (ms.map (fun u => u.id)).Nodup) (sel : List MigrationRecord)
    (st : Store σ) (hpfx : sel <+: st.records.reverse) (hinv : StoreInv ms st) :
    StoreInv ms (rollbackLoop env ms sel st).store ∧
    (rollbackLoop env ms sel st).store.clock = st.clock := by
  induction sel generalizing st with
  | nil =>
    rw [rollbackLoop_nil]
    exact ⟨hinv, rfl⟩
  | cons rec rest ih =>
    obtain ⟨t', ht'⟩ := hpfx
    have hrev : st.records.reverse = rec :: (rest ++ t') := by
      rw [← ht', List.cons_append]
    have hrecords : st.records = (rest ++ t').reverse ++ [rec] := by
      have h0 := congrArg List.reverse hrev
      simpa using h0
    obtain ⟨⟨m, hm⟩, hpw, hclk⟩ := hinv
    have hndrec : (st.records.map (fun r => r.id)).Nodup := by
      rw [hm]
      exact List.Nodup.sublist (List.take_sublist _ _) hndL
    have hrecL : rec.id ∈ ms.map (fun u => u.id) := by
      have h1 : rec.id ∈ st.records.map (fun r => r.id) := by
        rw [hrecords]
        simp
      rw [hm] at h1
      exact (List.take_sublist _ _).subset h1
    obtain ⟨u, hl⟩ := lookupMigration_isSome ms rec.id hrecL
    rcases undoUnit_spec env u rec st with ⟨e, heq⟩ | ⟨sch, _, heq⟩
    · rw [rollbackLoop_cons_fail env ms rec rest st st u e hl heq]
      exact ⟨⟨⟨m, hm⟩, hpw, hclk⟩, rfl⟩
    · rw [rollbackLoop_cons_ok env ms rec rest st _ u hl heq]
      simp only
      have hrecid : rec.id ∉ (rest ++ t').reverse.map (fun r => r.id) := by
        have hnd2 := hndrec
        rw [hrecords, List.map_append] at hnd2
        rcases List.nodup_append.mp hnd2 with ⟨_, _, hdisj⟩
        intro hmem
        exact hdisj hmem (by simp)
      have hfilter : st.records.filter (fun r => !(r.id == rec.id)) =
          (rest ++ t').reverse := by
        rw [hrecords, List.filter_append]
        have h1 : (rest ++ t').reverse.filter (fun r => !(r.id == rec.id)) =
            (rest ++ t').reverse := by
          rw [List.filter_eq_self]
          intro a ha
          have hane : a.id ≠ rec.id := by
            intro hc
            exact hrecid (hc ▸ List.mem_map_of_mem (fun r => r.id) ha)
          simp [hane]
        have h2 : ([rec] : List MigrationRecord).filter
            (fun r => !(r.id == rec.id)) = [] := by
          simp
        rw [h1, h2, List.append_nil]
      rw [hfilter]
      have hpw2 : List.Pairwise appliedLT ((rest ++ t').reverse ++ [rec]) := by
        rw [← hrecords]
        exact hpw
      refine ih ⟨st.tableExists, (rest ++ t').reverse, sch, st.clock⟩ ⟨t', by simp⟩
        ⟨⟨?_, ?_⟩, ?_, ?_⟩
      · exact min ((rest ++ t').reverse.map (fun r => r.id)).length m
      · have hq : (rest ++ t').reverse.map (fun r => r.id) ++ [rec.id] =
            (ms.map (fun u => u.id)).take m := by
          rw [← hm, hrecords]
          simp
        have hq2 : ((rest ++ t').reverse.map (fun r => r.id) ++ [rec.id]).take
            ((rest ++ t').reverse.map (fun r => r.id)).length =
            (rest ++ t').reverse.map (fun r => r.id) := List.take_left _ _
        rw [hq] at hq2
        rw [List.take_take] at hq2
        exact hq2.symm
      · exact (List.pairwise_append.mp hpw2).1
      · intro r hr
        exact hclk r (hrecords ▸ List.mem_append_left _ hr)

theorem migrate_inv (env : DBEnv) (ms : List (Migration σ))
    (hndL : (ms.map (fun u => u.id)).Nodup) (st : Store σ)
    (hinv : StoreInv ms st) : StoreInv ms (Migrate env ms st).store := by
  obtain ⟨⟨m, hm⟩, hpw, hclk⟩ := hinv
  unfold Migrate
  have hskip : ∀ u ∈ ms.take m, appliedPred st u.id = true := by
    intro u hu
    refine (appliedPred_eq_mem st u.id).mpr ?_
    rw [hm, ← List.map_take]
    exact List.mem_map_of_mem _ hu
  have hpend : ∀ u ∈ ms.drop m, appliedPred st u.id = false := by
    intro u hu
    cases hq : appliedPred st u.id with
    | false => rfl
    | true =>
      exfalso
      have hmem := (appliedPred_eq_mem st u.id).mp hq
      rw [hm, ← List.map_take] at hmem
      have hmem2 : u.id ∈ (ms.drop m).map (fun v => v.id) :=
        List.mem_map_of_mem _ hu
      have hnd2 : ((ms.take m).map (fun v => v.id) ++
          (ms.drop m).map (fun v => v.id)).Nodup := by
        rw [← List.map_append, List.take_append_drop]
        exact hndL
      exact (List.nodup_append.mp hnd2).2.2 hmem hmem2
  have hloop : migrateLoop env (appliedPred st) ms (ensured st) =
      migrateLoop env (appliedPred st) (ms.drop m) (ensured st) := by
    conv_lhs => rw [(List.take_append_drop m ms).symm]
    exact migrateLoop_skipAll env (appliedPred st) (ms.take m) (ms.drop m)
      (ensured st) hskip
  rw [hloop]
  constructor
  · rcases migrateLoop_pending_take env (appliedPred st) (ms.drop m)
      (ensured st) hpend with ⟨j, hj⟩
    refine ⟨m + j, ?_⟩
    rw [migrateLoop_records_ids, hj]
    have hens : (ensured st).records = st.records := rfl
    rw [hens, hm, List.take_add]
    congr 1
    rw [← List.map_drop, ← List.map_take]
  · exact migrateLoop_wf env (appliedPred st) (ms.drop m) (ensured st) hpw hclk

theorem rollback_inv (env : DBEnv) (ms : List (Migration σ))
    (hndL : (ms.map (fun u => u.id)).Nodup) (n : Int) (st : Store σ)
    (hinv : StoreInv ms st) : StoreInv ms (Rollback env ms n st).store := by
  cases htab : st.tableExists with
  | false =>
    simp only [Rollback, htab, if_false]
    exact hinv
  | true =>
    have hsd : sortDesc st.records = st.records.reverse :=
      sortDesc_eq_reverse st.records hinv.2.1
    have hpfx : limitSelect n (sortDesc st.records) <+: st.records.reverse := by
      rw [hsd]
      unfold limitSelect
      by_cases hn : n < 0
      · rw [if_pos hn]
      · rw [if_neg hn]
        exact ⟨st.records.reverse.drop n.toNat, List.take_append_drop _ _⟩
    simp only [Rollback, htab, if_true]
    exact (rollbackLoop_inv env ms hndL _ st hpfx hinv).1

/-- C6: every reachable store state keeps the applied set an initial
segment of registration order.  Starting from an empty store, after any
sequence of `Migrate()` and `Rollback(n)` calls (successful or failing)
against a fixed registry with unique unit ids, the recorded migration ids
are always the first `m` registry ids, in order, for some `m` — unit
`N+1` is never recorded while unit `N` is unrecorded. -/
theorem reachable_initial_segment (ms : List (Migration σ)) (sch : σ)
    (st : Store σ) (hndL : (ms.map (fun u => u.id)).Nodup)
    (hreach : Reachable ms sch st) :
    ∃ m, st.records.map (fun r => r.id) = (ms.map (fun u => u.id)).take m := by
  have hinv : StoreInv ms st := by
    induction hreach with
    | init => exact ⟨⟨0, by simp⟩, List.Pairwise.nil, by simp⟩
    | migrate env hst ih => exact migrate_inv env ms hndL _ ih
    | rollback env n hst ih => exact rollback_inv env ms hndL n _ ih
  exact hinv.1

theorem reachable_initial_segment_witness :
    ∃ m, ((Migrate DBEnv.ok [incUnit "001_a", incUnit "002_b"]
        freshStore).store.records.map (fun r => r.id)) =
      (([incUnit "001_a", incUnit "002_b"]).map (fun u => u.id)).take m :=
  reachable_initial_segment [incUnit "001_a", incUnit "002_b"] 0
    (Migrate DBEnv.ok [incUnit "001_a", incUnit "002_b"] freshStore).store
    (by decide) (Reachable.migrate DBEnv.ok Reachable.init)
